import Mathlib

/-!
Verification of the quick-todo core (src/scripts/storage.js): the
`InputProcessor` text-processing utilities and the `TodoStorage`
persistence layer.  JavaScript strings are modelled as Lean `String`
(sequences of Unicode scalar values); machine timestamps (`Date.now`,
ISO-8601 `createdAt` strings, which compare like their underlying
instants) are modelled as `Nat`; the single `localStorage` key holding
the serialized collection document is modelled as an explicit state
component, with JSON parsing/serialization of the document represented
by its parse result.
-/

namespace QuickTodo

/-! ## InputProcessor: pure text layer -/

/-- A JavaScript value passed where a string is expected: either an actual
string or some non-string value (`null`, `undefined`, a number, ...).
`InputProcessor.parseInput` and `InputProcessor.sanitizeItem` both begin
with `if (!text || typeof text !== 'string')`, so every non-string value
takes the same early-return branch and only the string payload matters. -/
inductive JsText where
  | nonString
  | ofString (s : String)
deriving DecidableEq

/-- The whitespace class matched by JavaScript `\s` (and removed by
`String.prototype.trim`): tab, LF, VT, FF, CR, space, NBSP, Ogham space
mark, the U+2000–U+200A range, LS, PS, NNBSP, MMSP, ideographic space,
and the BOM/ZWNBSP. -/
def isJsWs (c : Char) : Bool :=
  c.toNat = 0x9 || c.toNat = 0xa || c.toNat = 0xb || c.toNat = 0xc ||
  c.toNat = 0xd || c.toNat = 0x20 || c.toNat = 0xa0 || c.toNat = 0x1680 ||
  (0x2000 ≤ c.toNat && c.toNat ≤ 0x200a) || c.toNat = 0x2028 ||
  c.toNat = 0x2029 || c.toNat = 0x202f || c.toNat = 0x205f ||
  c.toNat = 0x3000 || c.toNat = 0xfeff

/-- `text.trim()`: drop leading and trailing JS whitespace. -/
def jsTrim (l : List Char) : List Char :=
  ((l.dropWhile isJsWs).reverse.dropWhile isJsWs).reverse

/-- One pass of `text.replace(/\s+/g, ' ')`: the boolean records whether
the previous character was part of a whitespace run (in which case
further whitespace is absorbed into the single space already emitted). -/
def collapseAux : List Char → Bool → List Char
  | [], _ => []
  | c :: rest, inRun =>
    if isJsWs c then
      if inRun then collapseAux rest true
      else ' ' :: collapseAux rest true
    else c :: collapseAux rest false

/-- `text.replace(/\s+/g, ' ')`: each maximal run of whitespace becomes a
single ASCII space. -/
def collapseWs (l : List Char) : List Char := collapseAux l false

/-- `InputProcessor.sanitizeItem` on an actual string:
`text.trim().replace(/\s+/g, ' ').slice(0, 200)`. -/
def sanitizeStr (s : String) : String :=
  String.mk ((collapseWs (jsTrim s.data)).take 200)

/-- `InputProcessor.sanitizeItem(text)`: non-string or empty (falsy)
input yields `""`; otherwise trim, collapse whitespace runs, truncate to
200 characters. -/
def sanitizeItem : JsText → String
  | .nonString => ""
  | .ofString s => if s = "" then "" else sanitizeStr s

/-- The delimiter class of `parseInput`'s regex `[,，、，]`: ASCII
comma U+002C, fullwidth comma U+FF0C (which the character class lists
twice: once literally and once as the escape `，`), and ideographic
comma U+3001.  The four listed delimiters hence denote three distinct
code points. -/
def isSep (c : Char) : Bool :=
  c.toNat = 0x2c || c.toNat = 0xff0c || c.toNat = 0x3001

/-- `text.split(/[,，、，]/)` on the character sequence: cut at every
delimiter occurrence, keeping empty segments (n delimiters yield n+1
segments). -/
def splitAux : List Char → List Char → List String
  | [], acc => [String.mk acc.reverse]
  | c :: cs, acc =>
    if isSep c then String.mk acc.reverse :: splitAux cs []
    else splitAux cs (c :: acc)

/-- `text.split(/[,，、，]/)`. -/
def jsSplit (s : String) : List String := splitAux s.data []

/-- `InputProcessor.parseInput(text)`: empty/non-string input yields `[]`;
if any delimiter occurs the string is split on all of them, otherwise the
whole string is a single candidate item; candidates are sanitized and
empty results dropped. -/
def parseInput : JsText → List String
  | .nonString => []
  | .ofString s =>
    if s = "" then []
    else
      let items := if s.data.any isSep then jsSplit s else [s]
      (items.map (fun i => sanitizeItem (.ofString i))).filter
        (fun i => i.length > 0)

/-! ## TodoStorage: data model and effectful state

`TodoStorage` reads and writes one `localStorage` key.  The state `St`
carries the raw stored value, an oracle listing the outcome of each
upcoming `setItem` call (empty list: every write succeeds), the current
time, a seed distinguishing successive `generateUUID` results, and
counters of `getItem`/`setItem` calls on the document key.  Computations
live in `M α = St → Except JsErr α × St`: a thrown JS exception is an
`Except.error` that keeps the state reached so far. -/

/-- A thrown JavaScript error, distinguished as in the source: `save`
tests `error.name === 'QuotaExceededError'`; accessing a property of
`null`/`undefined` raises a `TypeError`; everything else (bad JSON,
generic storage failure) is `otherErr`. -/
inductive JsErr where
  | quotaExceeded
  | typeError
  | otherErr
deriving DecidableEq

/-- The `settings` sub-object (passed through unchanged by the core). -/
structure Settings where
  theme : String
  animations : Bool
deriving DecidableEq

/-- A validated item as produced by `TodoStorage.validateItem` and the
add operations. -/
structure Item where
  id : String
  text : String
  completed : Bool
  createdAt : Nat
deriving DecidableEq

/-- A full collection document with every top-level field present. -/
structure Doc where
  version : String
  items : List Item
  lastUpdated : Nat
  settings : Settings
deriving DecidableEq

/-- A raw stored/imported item that parsed as a JSON object: each field
may be absent (or falsy, which `item.id || ...`-style defaulting treats
the same way), `completed` is given by its `Boolean(...)` coercion. -/
structure RawItm where
  id : Option String
  text : Option String
  completed : Bool
  createdAt : Option Nat
deriving DecidableEq

/-- A raw element of a stored `items` array: `validateItem` returns
`null` for anything that is not an object. -/
inductive RawItem where
  | nonObj
  | obj (i : RawItm)
deriving DecidableEq

/-- A parsed stored/imported document whose `items` field is an array. -/
structure RawDoc where
  version : Option String
  items : List RawItem
  lastUpdated : Option Nat
  settings : Option Settings
deriving DecidableEq

/-- Contents of the `localStorage` key, by its `JSON.parse` result:
absent, unparseable (`JSON.parse` throws), parseable but without an
array-valued `items` field, or a document. -/
inductive Stored where
  | absent
  | corrupt
  | nonDoc
  | doc (d : RawDoc)
deriving DecidableEq

/-- The explicit backend state threaded through every operation. -/
structure St where
  stored : Stored
  setOutcomes : List (Option JsErr)
  now : Nat
  seed : Nat
  getCount : Nat
  setCount : Nat
deriving DecidableEq

/-- Decidable equality of run results. -/
instance {ε α : Type} [DecidableEq ε] [DecidableEq α] :
    DecidableEq (Except ε α) := fun x y =>
  match x, y with
  | .ok a, .ok b =>
      if h : a = b then isTrue (by rw [h]) else isFalse (by simp [h])
  | .error e, .error f =>
      if h : e = f then isTrue (by rw [h]) else isFalse (by simp [h])
  | .ok _, .error _ => isFalse (by simp)
  | .error _, .ok _ => isFalse (by simp)

/-- Effectful computation over the backend state; errors model thrown
JS exceptions and preserve the state reached when they were thrown. -/
def M (α : Type) : Type := St → Except JsErr α × St

/-- Return a value. -/
def mpure {α : Type} (a : α) : M α := fun st => (.ok a, st)

/-- Sequence two computations; a thrown error short-circuits. -/
def mbind {α β : Type} (x : M α) (f : α → M β) : M β := fun st =>
  match x st with
  | (.ok a, st') => f a st'
  | (.error e, st') => (.error e, st')

/-- Throw a JS error. -/
def throwM {α : Type} (e : JsErr) : M α := fun st => (.error e, st)

/-- `try { body } catch (e) { handler }`. -/
def tryM {α : Type} (body : M α) (handler : JsErr → M α) : M α := fun st =>
  match body st with
  | (.ok a, st') => (.ok a, st')
  | (.error e, st') => handler e st'

/-- `localStorage.getItem(STORAGE_KEY)` (counted). -/
def getItemP : M Stored := fun st =>
  (.ok st.stored, { st with getCount := st.getCount + 1 })

/-- `new Date()` / `Date.now()`. -/
def getNow : M Nat := fun st => (.ok st.now, st)

/-- The string built by `generateUUID()`:
`'todo-' + Date.now() + '-' + <random suffix>`; the random suffix is
modelled by a per-state seed. -/
def uuidStr (now seed : Nat) : String :=
  "todo-" ++ toString now ++ "-" ++ toString seed

/-- `generateUUID()`: consumes one seed value. -/
def genUUID : M String := fun st =>
  (.ok (uuidStr st.now st.seed), { st with seed := st.seed + 1 })

/-- Take the outcome the oracle assigns to the next `setItem` call
(success when the oracle list is exhausted). -/
def popOutcome (st : St) : Option JsErr × St :=
  match st.setOutcomes with
  | [] => (none, st)
  | o :: rest => (o, { st with setOutcomes := rest })

/-- `localStorage.setItem(STORAGE_KEY, JSON.stringify(d))` (counted):
on success the key now holds `d`; on failure the corresponding error is
thrown. -/
def setItemP (d : RawDoc) : M Unit := fun st =>
  let (o, st₁) := popOutcome st
  let st₂ := { st₁ with setCount := st₁.setCount + 1 }
  match o with
  | none => (.ok (), { st₂ with stored := .doc d })
  | some e => (.error e, st₂)

/-- The throwaway `setItem` probe of `isStorageAvailable` (a different
key, so the stored document is untouched and the write is not counted
against the document key). -/
def probeSetP : M Unit := fun st =>
  let (o, st₁) := popOutcome st
  match o with
  | none => (.ok (), st₁)
  | some e => (.error e, st₁)

/-! ## TodoStorage operations -/

/-- `TodoStorage.VERSION`. -/
def VERSION : String := "1.0.0"

/-- The `settings` part of `getDefaultData()`. -/
def defaultSettings : Settings := { theme := "auto", animations := true }

/-- `TodoStorage.getDefaultData()` at a given current time. -/
def getDefaultData (now : Nat) : Doc :=
  { version := VERSION, items := [], lastUpdated := now,
    settings := defaultSettings }

/-- `getDefaultData()` as a computation (it reads `new Date()`). -/
def getDefaultDataM : M Doc := mbind getNow fun n => mpure (getDefaultData n)

/-- Serialize a validated item back to its raw (all-fields-present)
JSON form. -/
def Item.toRaw (it : Item) : RawItem :=
  .obj { id := some it.id, text := some it.text, completed := it.completed,
         createdAt := some it.createdAt }

/-- Serialize a full document to its raw JSON form. -/
def Doc.toRaw (d : Doc) : RawDoc :=
  { version := some d.version, items := d.items.map Item.toRaw,
    lastUpdated := some d.lastUpdated, settings := some d.settings }

/-- The object-input branch of `TodoStorage.validateItem`:
`id` defaults to a fresh UUID when absent/falsy, `text` is sanitized
(from `''` when absent/falsy), `completed` is the boolean coercion,
`createdAt` defaults to now when absent/falsy. -/
def validateObj (i : RawItm) : M Item :=
  mbind (match i.id with
         | some s => if s = "" then genUUID else mpure s
         | none => genUUID) fun id =>
  mbind (match i.createdAt with
         | some t => mpure t
         | none => getNow) fun createdAt =>
  mpure { id := id, text := sanitizeItem (.ofString (i.text.getD "")),
          completed := i.completed, createdAt := createdAt }

/-- `TodoStorage.validateItem(item)`: `null` for non-objects, otherwise
the repaired item. -/
def validateItem : RawItem → M (Option Item)
  | .nonObj => mpure none
  | .obj i => mbind (validateObj i) fun it => mpure (some it)

/-- `items.map(item => this.validateItem(item)).filter(Boolean)`. -/
def validateItems : List RawItem → M (List Item)
  | [] => mpure []
  | r :: rs =>
    mbind (validateItem r) fun o =>
    mbind (validateItems rs) fun rest =>
    mpure (match o with | some it => it :: rest | none => rest)

/-- `TodoStorage.load()`: absent data or data without an array `items`
yields the default document; parse errors are caught and also yield the
default; otherwise the parsed top-level fields are merged over the
default document and each raw item is validated, dropping `null`s. -/
def load : M Doc :=
  tryM
    (mbind getItemP fun s =>
      match s with
      | .absent => getDefaultDataM
      | .corrupt => throwM .otherErr
      | .nonDoc => getDefaultDataM
      | .doc d =>
          mbind getDefaultDataM fun dflt =>
          mbind (validateItems d.items) fun items =>
          mpure { version := d.version.getD dflt.version,
                  items := items,
                  lastUpdated := d.lastUpdated.getD dflt.lastUpdated,
                  settings := d.settings.getD dflt.settings })
    (fun _ => getDefaultDataM)

/-- Argument passed to `TodoStorage.save`: either a value failing the
`!data || !Array.isArray(data.items)` precondition, or a document. -/
inductive SaveArg where
  | invalid
  | valid (d : Doc)
deriving DecidableEq

/-- The `{...data, lastUpdated: new Date().toISOString(), version:
this.VERSION}` stamping performed by `save`. -/
def stamp (d : Doc) (now : Nat) : Doc :=
  { d with lastUpdated := now, version := VERSION }

/-- Stable descending sort by `createdAt`, modelling
`items.sort((a, b) => new Date(b.createdAt) - new Date(a.createdAt))`
(ES2019 `Array.prototype.sort` is stable): the inserted element (which
originally precedes every element of the sorted tail) is placed before
the first element whose key is ≤ its own, so equal-`createdAt` items
keep their original relative order. -/
def insertDesc (it : Item) : List Item → List Item
  | [] => [it]
  | x :: xs =>
    if x.createdAt ≤ it.createdAt then it :: x :: xs
    else x :: insertDesc it xs

/-- Stable insertion sort, descending by `createdAt` (each element is
inserted into the stably sorted list of the elements after it). -/
def sortByCreatedDesc : List Item → List Item
  | [] => []
  | x :: xs => insertDesc x (sortByCreatedDesc xs)

/-- `TodoStorage.handleStorageQuotaExceeded()`: reload; if the document
holds more than 100 items keep the 50 most recent and write them back
raw (direct `setItem`, no re-stamping); any failure here is swallowed. -/
def handleStorageQuotaExceeded : M Unit :=
  tryM
    (mbind load fun data =>
      if data.items.length > 100 then
        setItemP ({ data with
          items := (sortByCreatedDesc data.items).take 50 } : Doc).toRaw
      else mpure ())
    (fun _ => mpure ())

/-- `TodoStorage.save(data)`: reject non-documents; otherwise stamp
`lastUpdated`/`version` and write; a throwing write is caught, returns
`false`, and triggers quota recovery iff the error is quota exhaustion. -/
def save (arg : SaveArg) : M Bool :=
  tryM
    (match arg with
     | .invalid => mpure false
     | .valid d =>
         mbind getNow fun n =>
         mbind (setItemP (stamp d n).toRaw) fun _ =>
         mpure true)
    (fun e =>
      mbind (if e = .quotaExceeded then handleStorageQuotaExceeded
             else mpure ()) fun _ =>
      mpure false)

/-- `TodoStorage.addItem(text)`: `null` on empty sanitization, otherwise
load, append a freshly built item, save; the item on success. -/
def addItem (text : JsText) : M (Option Item) :=
  let s := sanitizeItem text
  if s = "" then mpure none
  else
    mbind load fun data =>
    mbind genUUID fun id =>
    mbind getNow fun n =>
    let newItem : Item := { id := id, text := s, completed := false,
                            createdAt := n }
    mbind (save (.valid { data with items := data.items ++ [newItem] }))
      fun ok => mpure (if ok then some newItem else none)

/-- The `for (const text of textArray)` loop of `addItems`: build the
list of successfully constructed items (skipping empty sanitizations). -/
def addItemsLoop : List JsText → M (List Item)
  | [] => mpure []
  | t :: ts =>
    let s := sanitizeItem t
    if s = "" then addItemsLoop ts
    else
      mbind genUUID fun id =>
      mbind getNow fun n =>
      mbind (addItemsLoop ts) fun rest =>
      mpure (({ id := id, text := s, completed := false,
                createdAt := n } : Item) :: rest)

/-- `TodoStorage.addItems(textArray)`: `[]` for a non-array argument
(`none`); otherwise one load, the construction loop, and one save iff at
least one item was built; returns the built items regardless of the save
result. -/
def addItems (arg : Option (List JsText)) : M (List Item) :=
  match arg with
  | none => mpure []
  | some ts =>
    mbind load fun data =>
    mbind (addItemsLoop ts) fun newItems =>
    if newItems.length > 0 then
      mbind (save (.valid { data with items := data.items ++ newItems }))
        fun _ => mpure newItems
    else mpure newItems

/-- The updates object of `updateItem`; the whole argument is
`Option UpdObj`, with `none` standing for `null`/`undefined` (whose
`updates.text` property access throws a `TypeError`). -/
structure UpdObj where
  text : Option String
  completed : Option Bool
  createdAt : Option Nat
deriving DecidableEq

/-- `TodoStorage.updateItem(id, updates)`: load, locate by id (`null`
without writing when missing); merge `updates` over the item with the
original `id` forced and `text` re-sanitized only when a truthy new text
was supplied; re-validate, write back, return the stored item (or `null`
if the save failed). -/
def updateItem (id : String) (updates : Option UpdObj) : M (Option Item) :=
  mbind load fun data =>
  match data.items.findIdx? (fun it => it.id == id) with
  | none => mpure none
  | some ix =>
    match updates with
    | none => throwM .typeError
    | some u =>
      let old := data.items.getD ix
        { id := "", text := "", completed := false, createdAt := 0 }
      let mergedText : String :=
        match u.text with
        | some t => if t = "" then old.text else sanitizeItem (.ofString t)
        | none => old.text
      let merged : RawItm :=
        { id := some id, text := some mergedText,
          completed := u.completed.getD old.completed,
          createdAt := some (u.createdAt.getD old.createdAt) }
      mbind (validateObj merged) fun v =>
      mbind (save (.valid { data with items := data.items.set ix v }))
        fun ok => mpure (if ok then some v else none)

/-- `TodoStorage.deleteItem(id)`: load, drop items with the given id;
`false` without writing when nothing was dropped, else the save result. -/
def deleteItem (id : String) : M Bool :=
  mbind load fun data =>
  let remaining := data.items.filter (fun it => !(it.id == id))
  if remaining.length < data.items.length then
    save (.valid { data with items := remaining })
  else mpure false

/-- `TodoStorage.clearAll()`: save a fresh default document. -/
def clearAll : M Bool :=
  mbind getDefaultDataM fun d => save (.valid d)

/-- The JSON text handled by `importData`, represented by its parse
result: unparseable text, a parse without an array-valued `items`, or a
document. -/
inductive ImportArg where
  | malformed
  | parsedNonDoc
  | parsedDoc (d : RawDoc)
deriving DecidableEq

/-- `TodoStorage.exportData()`: the current document, serialized (the
serialized text is represented by what it parses back to). -/
def exportData : M ImportArg :=
  mbind load fun d => mpure (.parsedDoc d.toRaw)

/-- `TodoStorage.importData(jsonString)`: parse failures and documents
without an array `items` are caught and yield `false`; otherwise the
parsed fields are merged over a fresh default document, items are
validated (dropping `null`s), and the result is saved. -/
def importData (j : ImportArg) : M Bool :=
  tryM
    (match j with
     | .malformed => throwM .otherErr
     | .parsedNonDoc => throwM .otherErr
     | .parsedDoc d =>
         mbind getDefaultDataM fun dflt =>
         mbind (validateItems d.items) fun items =>
         save (.valid { version := d.version.getD dflt.version,
                        items := items,
                        lastUpdated := d.lastUpdated.getD dflt.lastUpdated,
                        settings := d.settings.getD dflt.settings }))
    (fun _ => mpure false)

/-- `TodoStorage.isStorageAvailable()`: a throwaway probe write; `false`
on any failure. -/
def isStorageAvailable : M Bool :=
  tryM (mbind probeSetP fun _ => mpure true) (fun _ => mpure false)

/-- A store with nothing persisted yet (a "fresh default store": `load`
on it yields the default document) and an all-success write oracle. -/
def freshStore (now seed : Nat) : St :=
  { stored := .absent, setOutcomes := [], now := now, seed := seed,
    getCount := 0, setCount := 0 }

/-! ## Pure descriptions of the runs

Each effectful operation is deterministic given the state, so its value
and state transition are described by pure functions: `…Cost` counts the
`generateUUID` seeds an operation consumes, `…V` computes its value. -/

/-- Seeds consumed by `validateItem` on an object: one iff the raw `id`
is absent or falsy. -/
def itemCost (i : RawItm) : Nat :=
  match i.id with
  | some s => if s = "" then 1 else 0
  | none => 1

/-- Value of `validateItem` on an object input. -/
def validateObjV (i : RawItm) (now seed : Nat) : Item :=
  { id := match i.id with
          | some s => if s = "" then uuidStr now seed else s
          | none => uuidStr now seed,
    text := sanitizeItem (.ofString (i.text.getD "")),
    completed := i.completed,
    createdAt := i.createdAt.getD now }

/-- Seeds consumed validating a raw item list. -/
def vCost : List RawItem → Nat
  | [] => 0
  | .nonObj :: rs => vCost rs
  | .obj i :: rs => itemCost i + vCost rs

/-- Value of `items.map(validateItem).filter(Boolean)`. -/
def validateItemsV : List RawItem → Nat → Nat → List Item
  | [], _, _ => []
  | .nonObj :: rs, now, seed => validateItemsV rs now seed
  | .obj i :: rs, now, seed =>
      validateObjV i now seed :: validateItemsV rs now (seed + itemCost i)

/-- Seeds consumed by `load`. -/
def loadCost : Stored → Nat
  | .doc d => vCost d.items
  | _ => 0

/-- Value of `load` as a function of the stored value, time and seed. -/
def loadV : Stored → Nat → Nat → Doc
  | .doc d, now, seed =>
      { version := d.version.getD VERSION,
        items := validateItemsV d.items now seed,
        lastUpdated := d.lastUpdated.getD now,
        settings := d.settings.getD defaultSettings }
  | _, now, _ => getDefaultData now

/-- The document `load` yields on a given state. -/
def loadedDoc (st : St) : Doc := loadV st.stored st.now st.seed

/-- The state after one `load`: one more `getItem`, and the seeds its
validation consumed. -/
def afterLoad (st : St) : St :=
  { st with getCount := st.getCount + 1,
            seed := st.seed + loadCost st.stored }

/-- The state after a successful `save` of document `d`: the stamped
document is stored and one more write is counted. -/
def afterSaveOk (st : St) (d : Doc) : St :=
  { st with stored := .doc (stamp d st.now).toRaw,
            setCount := st.setCount + 1 }

/-- Replace a document's items. -/
def withItems (d : Doc) (l : List Item) : Doc := { d with items := l }

/-- Seeds consumed by the `addItems` construction loop. -/
def addLoopCost : List JsText → Nat
  | [] => 0
  | t :: ts => (if sanitizeItem t = "" then 0 else 1) + addLoopCost ts

/-- Items built by the `addItems` construction loop. -/
def addLoopV : List JsText → Nat → Nat → List Item
  | [], _, _ => []
  | t :: ts, now, seed =>
    if sanitizeItem t = "" then addLoopV ts now seed
    else { id := uuidStr now seed, text := sanitizeItem t,
           completed := false, createdAt := now } :: addLoopV ts now (seed + 1)

/-- The ids `addItems` will generate on a given state (the loop runs
after `load`, whose validation may itself consume seeds). -/
def genIdsOf (st : St) (ts : List JsText) : List String :=
  (addLoopV ts st.now (st.seed + loadCost st.stored)).map (fun it => it.id)

/-- The state after the `addItems` construction loop: the seeds it
consumed. -/
def afterLoop (st : St) (ts : List JsText) : St :=
  { st with seed := st.seed + addLoopCost ts }

/-- Placeholder item for (unreachable) out-of-range indexing. -/
def dummyItem : Item := { id := "", text := "", completed := false,
                          createdAt := 0 }

/-- The item `updateItem` stores when the supplied text is falsy (absent
or empty): the original id, the re-sanitization of the previous text,
and the remaining fields merged from the updates object. -/
def updMergedItem (old : Item) (id : String) (u : UpdObj) : Item :=
  { id := id, text := sanitizeItem (.ofString old.text),
    completed := u.completed.getD old.completed,
    createdAt := u.createdAt.getD old.createdAt }

/-- The stated invariant on a collection document: non-empty item texts
and pairwise-distinct ids. -/
def DocInv (d : Doc) : Prop :=
  (∀ it ∈ d.items, it.text ≠ "") ∧ (d.items.map (fun it => it.id)).Nodup

/-- An operation never lets an exception propagate: on every state it
returns a value. -/
def NoThrow {α : Type} (x : M α) : Prop :=
  ∀ st, ∃ a st', x st = (.ok a, st')

/-! ## Concrete stores and inputs used by witnesses and counterexamples -/

/-- A stored document holding two raw items that share the id `"x"`, the
first of which lacks a `text` field. -/
def dupRawDoc : RawDoc :=
  { version := some "1.0.0",
    items := [.obj { id := some "x", text := none, completed := false,
                     createdAt := some 1 },
              .obj { id := some "x", text := some "b", completed := false,
                     createdAt := some 2 }],
    lastUpdated := some 3, settings := none }

/-- A store persisting `dupRawDoc`. -/
def dupSt : St :=
  { stored := .doc dupRawDoc, setOutcomes := [], now := 10, seed := 0,
    getCount := 0, setCount := 0 }

/-- A well-formed one-item document (id `"x"`, text `"hello"`). -/
def oneItemDoc : Doc :=
  { version := "1.0.0",
    items := [{ id := "x", text := "hello", completed := false,
                createdAt := 3 }],
    lastUpdated := 4, settings := defaultSettings }

/-- A store persisting `oneItemDoc`, with every write succeeding. -/
def oneItemSt : St :=
  { stored := .doc oneItemDoc.toRaw, setOutcomes := [], now := 9, seed := 0,
    getCount := 0, setCount := 0 }

/-- A raw item whose text is 199 `a`s followed by `" b"`: sanitization
truncates it to 200 characters ending in a space, which a second
sanitization would trim again. -/
def truncRawItm : RawItm :=
  { id := some "x",
    text := some (String.mk (List.replicate 199 'a' ++ [' ', 'b'])),
    completed := false, createdAt := some 1 }

/-- A store whose single item's validated text is a 200-character
truncation ending in a space. -/
def truncSt : St :=
  { stored := .doc { version := some "1.0.0", items := [.obj truncRawItm],
                     lastUpdated := some 2, settings := none },
    setOutcomes := [], now := 7, seed := 0, getCount := 0, setCount := 0 }

/-- 120 valid raw items with distinct ids and increasing `createdAt`. -/
def manyRawItems : List RawItem :=
  (List.range 120).map (fun k =>
    .obj { id := some ("i" ++ toString k), text := some "t",
           completed := false, createdAt := some k })

/-- A store persisting 120 items whose next document write fails with
quota exhaustion (and whose recovery write succeeds). -/
def manySt : St :=
  { stored := .doc { version := some "1.0.0", items := manyRawItems,
                     lastUpdated := some 5, settings := none },
    setOutcomes := [some .quotaExceeded], now := 200, seed := 0,
    getCount := 0, setCount := 0 }

/-! ## Basic facts about the text layer -/

theorem string_length_pos_iff (s : String) : 0 < s.length ↔ s ≠ "" := by
  constructor
  · intro h heq
    subst heq
    exact absurd h (by decide)
  · intro h
    have hd : s.data ≠ [] := by
      intro hnil
      exact h (String.ext (by rw [hnil]))
    exact List.length_pos.mpr hd

/-- C1: `parseInput` behaves as specified: non-string and empty inputs
yield `[]`; when the input contains at least one of the recognized
delimiter characters (U+002C, U+FF0C — listed twice in the source regex —
and U+3001) the result is exactly the non-empty sanitized segments
between delimiter occurrences in original order; with no delimiter
present the whole input is sanitized and kept iff non-empty; and the
spec's example `"milk,bread、egg，rice"` parses to
`["milk","bread","egg","rice"]`. -/
theorem parseInput_spec :
    parseInput .nonString = [] ∧
    parseInput (.ofString "") = [] ∧
    (∀ s : String, s ≠ "" → s.data.any isSep = true →
      parseInput (.ofString s) =
        ((jsSplit s).map (fun t => sanitizeItem (.ofString t))).filter
          (fun t => t.length > 0)) ∧
    (∀ s : String, s ≠ "" → s.data.any isSep = false →
      parseInput (.ofString s) =
        if sanitizeItem (.ofString s) = "" then []
        else [sanitizeItem (.ofString s)]) ∧
    parseInput (.ofString "milk,bread、egg，rice") =
      ["milk", "bread", "egg", "rice"] := by
  refine ⟨rfl, rfl, ?_, ?_, by decide⟩
  · intro s hne hsep
    simp [parseInput, hne, hsep]
  · intro s hne hsep
    simp only [parseInput, hne, if_neg hne, hsep, if_false, Bool.false_eq_true,
      List.map_cons, List.map_nil]
    by_cases h : sanitizeItem (.ofString s) = ""
    · simp [h, List.filter]
    · have : 0 < (sanitizeItem (.ofString s)).length :=
        (string_length_pos_iff _).mpr h
      simp [h, List.filter, this]

/-- Witness for C1: the delimiter branch at `"a, b、c"` (mixed delimiters)
and the no-delimiter branch at `"  hi  "`. -/
theorem parseInput_spec_witness :
    parseInput (.ofString "a, b、c") = ["a", "b", "c"] ∧
    parseInput (.ofString "  hi  ") = ["hi"] := by
  constructor
  · have h := parseInput_spec.2.2.1 "a, b、c" (by decide) (by decide)
    rw [h]; decide
  · have h := parseInput_spec.2.2.2.1 "  hi  " (by decide) (by decide)
    rw [h]; decide

set_option maxRecDepth 4000 in
/-- C2: `sanitizeItem` behaves as specified: non-string and empty inputs
yield `""`; every string input is trimmed, has each whitespace run
collapsed to one ASCII space, and is then truncated to its first 200
characters (so the result never exceeds 200 characters); the spec's
examples hold: `"  a   b\n\tc  "` becomes `"a b c"` and a 300-character
input is cut to exactly its first 200 characters. -/
theorem sanitizeItem_spec :
    sanitizeItem .nonString = "" ∧
    sanitizeItem (.ofString "") = "" ∧
    (∀ s : String,
      (sanitizeItem (.ofString s)).data = (collapseWs (jsTrim s.data)).take 200) ∧
    (∀ s : String, (sanitizeItem (.ofString s)).length ≤ 200) ∧
    sanitizeItem (.ofString "  a   b\n\tc  ") = "a b c" ∧
    sanitizeItem (.ofString (String.mk (List.replicate 300 'x'))) =
      String.mk (List.replicate 200 'x') := by
  refine ⟨rfl, rfl, ?_, ?_, by decide, by decide⟩
  · intro s
    by_cases h : s = ""
    · subst h; decide
    · simp [sanitizeItem, h, sanitizeStr]
  · intro s
    by_cases h : s = ""
    · subst h; decide
    · simp only [sanitizeItem, if_neg h, sanitizeStr]
      show ((collapseWs (jsTrim s.data)).take 200).length ≤ 200
      exact List.length_take_le 200 _

end QuickTodo

namespace QuickTodo

/-! ## Run lemmas: each operation's value and state transition -/

theorem validateObj_run (i : RawItm) (st : St) :
    validateObj i st = (.ok (validateObjV i st.now st.seed),
      { st with seed := st.seed + itemCost i }) := by
  rcases st with ⟨stored, outs, now, seed, gc, sc⟩
  rcases i with ⟨iid, itext, icomp, icat⟩
  cases iid with
  | none =>
    cases icat <;>
      simp [validateObj, validateObjV, itemCost, mbind, mpure, genUUID, getNow]
  | some s =>
    by_cases hs : s = "" <;> cases icat <;>
      simp [validateObj, validateObjV, itemCost, mbind, mpure, genUUID,
        getNow, hs]

theorem validateItems_run (rs : List RawItem) (st : St) :
    validateItems rs st = (.ok (validateItemsV rs st.now st.seed),
      { st with seed := st.seed + vCost rs }) := by
  induction rs generalizing st with
  | nil => simp [validateItems, validateItemsV, vCost, mpure]
  | cons r rs ih =>
    cases r with
    | nonObj =>
      simp [validateItems, validateItem, mbind, mpure, ih, validateItemsV,
        vCost]
    | obj i =>
      simp [validateItems, validateItem, mbind, mpure, validateObj_run, ih,
        validateItemsV, vCost, Nat.add_assoc]

theorem load_run (st : St) :
    load st = (.ok (loadedDoc st), afterLoad st) := by
  rcases st with ⟨stored, outs, now, seed, gc, sc⟩
  cases stored <;>
    simp [load, loadedDoc, afterLoad, tryM, mbind, mpure, getItemP, getNow,
      getDefaultDataM, throwM, validateItems_run, loadV, loadCost,
      getDefaultData]

theorem save_valid_ok (st : St) (d : Doc) (h : st.setOutcomes = []) :
    save (.valid d) st = (.ok true,
      { st with stored := .doc (stamp d st.now).toRaw,
                setCount := st.setCount + 1 }) := by
  rcases st with ⟨stored, outs, now, seed, gc, sc⟩
  subst h
  simp [save, tryM, mbind, mpure, getNow, setItemP, popOutcome]

theorem save_valid_fail_other (st : St) (d : Doc) (rest : List (Option JsErr))
    (h : st.setOutcomes = some .otherErr :: rest) :
    save (.valid d) st = (.ok false,
      { st with setOutcomes := rest, setCount := st.setCount + 1 }) := by
  rcases st with ⟨stored, outs, now, seed, gc, sc⟩
  subst h
  simp [save, tryM, mbind, mpure, getNow, setItemP, popOutcome,
    handleStorageQuotaExceeded]

end QuickTodo

namespace QuickTodo

/-! ## Exception-freedom combinators -/

theorem noThrow_mpure {α : Type} (a : α) : NoThrow (mpure a) :=
  fun st => ⟨a, st, rfl⟩

theorem noThrow_mbind {α β : Type} {x : M α} {f : α → M β}
    (hx : NoThrow x) (hf : ∀ a, NoThrow (f a)) : NoThrow (mbind x f) := by
  intro st
  obtain ⟨a, st₁, hx₁⟩ := hx st
  obtain ⟨b, st₂, hf₁⟩ := hf a st₁
  exact ⟨b, st₂, by simp [mbind, hx₁, hf₁]⟩

theorem noThrow_tryM {α : Type} (x : M α) {h : JsErr → M α}
    (hh : ∀ e, NoThrow (h e)) : NoThrow (tryM x h) := by
  intro st
  rcases hx : x st with ⟨r, st₁⟩
  cases r with
  | ok a => exact ⟨a, st₁, by simp [tryM, hx]⟩
  | error e =>
    obtain ⟨a, st₂, hh₁⟩ := hh e st₁
    exact ⟨a, st₂, by simp [tryM, hx, hh₁]⟩

theorem noThrow_getNow : NoThrow getNow := fun st => ⟨st.now, st, rfl⟩

theorem noThrow_genUUID : NoThrow genUUID := fun st => ⟨_, _, rfl⟩

theorem noThrow_getDefaultDataM : NoThrow getDefaultDataM :=
  noThrow_mbind noThrow_getNow (fun _ => noThrow_mpure _)

theorem noThrow_load : NoThrow load := fun st =>
  ⟨loadedDoc st, _, load_run st⟩

theorem noThrow_handleQuota : NoThrow handleStorageQuotaExceeded :=
  noThrow_tryM _ (fun _ => noThrow_mpure _)

theorem noThrow_save (arg : SaveArg) : NoThrow (save arg) := by
  refine noThrow_tryM _ (fun e => ?_)
  refine noThrow_mbind ?_ (fun _ => noThrow_mpure _)
  by_cases h : e = .quotaExceeded
  · simpa [h] using noThrow_handleQuota
  · simpa [h] using noThrow_mpure ()

theorem noThrow_validateObj (i : RawItm) : NoThrow (validateObj i) :=
  fun st => ⟨_, _, validateObj_run i st⟩

theorem noThrow_validateItem (r : RawItem) : NoThrow (validateItem r) := by
  cases r with
  | nonObj => exact noThrow_mpure _
  | obj i =>
    exact noThrow_mbind (noThrow_validateObj i) (fun _ => noThrow_mpure _)

theorem noThrow_validateItems (rs : List RawItem) :
    NoThrow (validateItems rs) :=
  fun st => ⟨_, _, validateItems_run rs st⟩

theorem noThrow_addItem (t : JsText) : NoThrow (addItem t) := by
  unfold addItem
  by_cases h : sanitizeItem t = ""
  · simpa [h] using noThrow_mpure (α := Option Item) none
  · simp only [h, if_neg h]
    exact noThrow_mbind noThrow_load (fun data =>
      noThrow_mbind noThrow_genUUID (fun id =>
        noThrow_mbind noThrow_getNow (fun n =>
          noThrow_mbind (noThrow_save _) (fun ok => noThrow_mpure _))))

theorem noThrow_addItemsLoop (ts : List JsText) :
    NoThrow (addItemsLoop ts) := by
  induction ts with
  | nil => exact noThrow_mpure _
  | cons t ts ih =>
    unfold addItemsLoop
    by_cases h : sanitizeItem t = ""
    · simpa [h] using ih
    · rw [if_neg h]
      exact noThrow_mbind noThrow_genUUID (fun id =>
        noThrow_mbind noThrow_getNow (fun n =>
          noThrow_mbind ih (fun rest => noThrow_mpure _)))

theorem noThrow_addItems (arg : Option (List JsText)) :
    NoThrow (addItems arg) := by
  cases arg with
  | none => exact noThrow_mpure _
  | some ts =>
    refine noThrow_mbind noThrow_load (fun data => ?_)
    refine noThrow_mbind (noThrow_addItemsLoop ts) (fun newItems => ?_)
    by_cases h : newItems.length > 0
    · simp only [h, if_pos h]
      exact noThrow_mbind (noThrow_save _) (fun _ => noThrow_mpure _)
    · simpa [h] using noThrow_mpure newItems

theorem noThrow_updateItem_obj (id : String) (u : UpdObj) :
    NoThrow (updateItem id (some u)) := by
  refine noThrow_mbind noThrow_load (fun data => ?_)
  cases hidx : data.items.findIdx? (fun it => it.id == id) with
  | none => simpa [hidx] using noThrow_mpure (α := Option Item) none
  | some ix =>
    simp only [hidx]
    exact noThrow_mbind (noThrow_validateObj _) (fun v =>
      noThrow_mbind (noThrow_save _) (fun ok => noThrow_mpure _))

theorem noThrow_deleteItem (id : String) : NoThrow (deleteItem id) := by
  refine noThrow_mbind noThrow_load (fun data => ?_)
  by_cases h : (data.items.filter (fun it => !(it.id == id))).length <
      data.items.length
  · simpa [h] using noThrow_save
      (.valid { data with
        items := data.items.filter (fun it => !(it.id == id)) })
  · simpa [h] using noThrow_mpure false

theorem noThrow_clearAll : NoThrow clearAll :=
  noThrow_mbind noThrow_getDefaultDataM (fun d => noThrow_save _)

theorem noThrow_exportData : NoThrow exportData :=
  noThrow_mbind noThrow_load (fun d => noThrow_mpure _)

theorem noThrow_importData (j : ImportArg) : NoThrow (importData j) :=
  noThrow_tryM _ (fun _ => noThrow_mpure _)

theorem noThrow_isStorageAvailable : NoThrow isStorageAvailable :=
  noThrow_tryM _ (fun _ => noThrow_mpure _)

end QuickTodo

namespace QuickTodo

/-- C4, counterexample: `updateItem` with a `null`/`undefined` updates
argument throws a `TypeError` (the `updates.text` property access) as
soon as the id is present: nothing catches it, so the exception
propagates to the caller. -/
theorem updateItem_null_updates_throws :
    (updateItem "x" none oneItemSt).1 = .error .typeError := by decide

/-- C4 (amended): every public core operation (`load`, `save`,
`validateItem`, `addItem`, `addItems`, `deleteItem`, `clearAll`,
`exportData`, `importData`, `isStorageAvailable`) is total and never
lets an exception propagate; `updateItem` is total for every non-null
updates object, and for null updates whenever the id is absent (it then
returns `null` before touching `updates`) — the sole exception escape is
null updates with a present id. -/
theorem core_operations_total :
    NoThrow load ∧
    (∀ arg, NoThrow (save arg)) ∧
    (∀ r, NoThrow (validateItem r)) ∧
    (∀ t, NoThrow (addItem t)) ∧
    (∀ o, NoThrow (addItems o)) ∧
    (∀ id u, NoThrow (updateItem id (some u))) ∧
    (∀ id st, (∀ it ∈ (loadedDoc st).items, it.id ≠ id) →
      ∃ st', updateItem id none st = (.ok none, st')) ∧
    (∀ id, NoThrow (deleteItem id)) ∧
    NoThrow clearAll ∧
    NoThrow exportData ∧
    (∀ j, NoThrow (importData j)) ∧
    NoThrow isStorageAvailable := by
  refine ⟨noThrow_load, noThrow_save, noThrow_validateItem, noThrow_addItem,
    noThrow_addItems, noThrow_updateItem_obj, ?_, noThrow_deleteItem,
    noThrow_clearAll, noThrow_exportData, noThrow_importData,
    noThrow_isStorageAvailable⟩
  intro id st h
  have hidx : (loadedDoc st).items.findIdx? (fun it => it.id == id) = none :=
    List.findIdx?_eq_none_iff.mpr (fun x hx => by simp [h x hx])
  refine Exists.intro (afterLoad st) ?_
  simp only [updateItem, mbind, load_run, hidx, mpure]

/-- Witness for C4: on a fresh store (no item present) a null updates
object is harmless: `updateItem` returns `null` without throwing. -/
theorem core_operations_total_witness :
    (updateItem "z" none (freshStore 0 0)).1 = .ok none := by
  obtain ⟨st', h⟩ := core_operations_total.2.2.2.2.2.2.1 "z" (freshStore 0 0)
    (by intro it hit; simp [loadedDoc, loadV, freshStore, getDefaultData] at hit)
  rw [h]

end QuickTodo

namespace QuickTodo

/-- C8: for an id absent from the stored collection, `updateItem` returns
`null` for every updates object — including null ones — and performs no
write: the persisted document (hence its `lastUpdated` stamp), the write
counter, and the write oracle are left untouched. -/
theorem updateItem_missing_id (st : St) (id : String) (u : Option UpdObj)
    (h : ∀ it ∈ (loadedDoc st).items, it.id ≠ id) :
    (updateItem id u st).1 = .ok none ∧
    (updateItem id u st).2.stored = st.stored ∧
    (updateItem id u st).2.setCount = st.setCount ∧
    (updateItem id u st).2.setOutcomes = st.setOutcomes := by
  have hidx : (loadedDoc st).items.findIdx? (fun it => it.id == id) = none :=
    List.findIdx?_eq_none_iff.mpr (fun x hx => by simp [h x hx])
  simp [updateItem, mbind, load_run, hidx, mpure, afterLoad]

/-- Witness for C8: `updateItem` with a fresh text on an id that is not
stored returns `null` and leaves the stored document alone. -/
theorem updateItem_missing_id_witness :
    (updateItem "zz"
      (some { text := some "new", completed := none, createdAt := none })
      oneItemSt).1 = .ok none ∧
    (updateItem "zz"
      (some { text := some "new", completed := none, createdAt := none })
      oneItemSt).2.stored = oneItemSt.stored := by
  have h := updateItem_missing_id oneItemSt "zz"
    (some { text := some "new", completed := none, createdAt := none })
    (by decide)
  exact ⟨h.1, h.2.1⟩

/-- C9: `deleteItem` on an absent id returns `false` and performs no
write (so `lastUpdated` is unaltered); on a present id it persists the
document filtered of exactly the items with that id and returns the save
result (`true` when the write succeeds, `false` when the backend write
fails). -/
theorem deleteItem_spec (st : St) (id : String) :
    ((∀ it ∈ (loadedDoc st).items, it.id ≠ id) →
      (deleteItem id st).1 = .ok false ∧
      (deleteItem id st).2.stored = st.stored ∧
      (deleteItem id st).2.setCount = st.setCount) ∧
    ((∃ it ∈ (loadedDoc st).items, it.id = id) → st.setOutcomes = [] →
      (deleteItem id st).1 = .ok true ∧
      (deleteItem id st).2.stored = .doc (stamp { loadedDoc st with
        items := (loadedDoc st).items.filter (fun it => !(it.id == id)) }
        st.now).toRaw ∧
      (deleteItem id st).2.setCount = st.setCount + 1) ∧
    ((∃ it ∈ (loadedDoc st).items, it.id = id) →
      st.setOutcomes = some .otherErr :: [] →
      (deleteItem id st).1 = .ok false ∧
      (deleteItem id st).2.stored = st.stored) := by
  refine ⟨?_, ?_, ?_⟩
  · intro h
    have hfix : (loadedDoc st).items.filter (fun it => !(it.id == id)) =
        (loadedDoc st).items :=
      List.filter_eq_self.mpr (fun a ha => by simp [h a ha])
    have hlt : ¬ ((loadedDoc st).items.filter
        (fun it => !(it.id == id))).length < (loadedDoc st).items.length := by
      rw [hfix]
      exact lt_irrefl _
    simp [deleteItem, mbind, load_run, mpure, hlt, afterLoad]
  · intro h h0
    obtain ⟨w, hw, hwid⟩ := h
    have hlt : ((loadedDoc st).items.filter
        (fun it => !(it.id == id))).length < (loadedDoc st).items.length :=
      List.length_filter_lt_length_iff_exists.mpr ⟨w, hw, by simp [hwid]⟩
    have h0' : (afterLoad st).setOutcomes = [] := h0
    have hs := save_valid_ok (afterLoad st)
      { loadedDoc st with
          items := (loadedDoc st).items.filter (fun it => !(it.id == id)) }
      h0'
    simp only [afterLoad] at hs
    simp [deleteItem, mbind, load_run, mpure, hlt, hs, stamp, afterLoad]
  · intro h h0
    obtain ⟨w, hw, hwid⟩ := h
    have hlt : ((loadedDoc st).items.filter
        (fun it => !(it.id == id))).length < (loadedDoc st).items.length :=
      List.length_filter_lt_length_iff_exists.mpr ⟨w, hw, by simp [hwid]⟩
    have h0' : (afterLoad st).setOutcomes = some .otherErr :: [] := h0
    have hs := save_valid_fail_other (afterLoad st)
      { loadedDoc st with
          items := (loadedDoc st).items.filter (fun it => !(it.id == id)) }
      [] h0'
    simp only [afterLoad] at hs
    simp [deleteItem, mbind, load_run, mpure, hlt, hs, afterLoad]

/-- Witness for C9: deleting an absent id on a one-item store returns
`false` and writes nothing; deleting the present id `"x"` persists the
emptied document and returns `true`. -/
theorem deleteItem_spec_witness :
    ((deleteItem "zz" oneItemSt).1 = .ok false ∧
      (deleteItem "zz" oneItemSt).2.stored = oneItemSt.stored) ∧
    ((deleteItem "x" oneItemSt).1 = .ok true ∧
      (deleteItem "x" oneItemSt).2.setCount = 1) := by
  constructor
  · have h := (deleteItem_spec oneItemSt "zz").1 (by decide)
    exact ⟨h.1, h.2.1⟩
  · have h := (deleteItem_spec oneItemSt "x").2.1 (by decide) rfl
    exact ⟨h.1, h.2.2⟩

end QuickTodo

namespace QuickTodo

/-! ## The addItems construction loop -/

theorem addItemsLoop_run (ts : List JsText) (st : St) :
    addItemsLoop ts st = (.ok (addLoopV ts st.now st.seed),
      { st with seed := st.seed + addLoopCost ts }) := by
  induction ts generalizing st with
  | nil => simp [addItemsLoop, addLoopV, addLoopCost, mpure]
  | cons t ts ih =>
    by_cases h : sanitizeItem t = ""
    · simp [addItemsLoop, addLoopV, addLoopCost, h, ih]
    · simp [addItemsLoop, addLoopV, addLoopCost, h, ih, mbind, mpure,
        genUUID, getNow, Nat.add_assoc]

theorem addLoopV_texts (ts : List JsText) (now seed : Nat) :
    (addLoopV ts now seed).map (fun it => it.text) =
      (ts.map sanitizeItem).filter (fun s => !(s == "")) := by
  induction ts generalizing seed with
  | nil => rfl
  | cons t ts ih =>
    by_cases h : sanitizeItem t = ""
    · simp [addLoopV, h, ih, List.filter]
    · have hb : (sanitizeItem t == "") = false := by simp [h]
      simp [addLoopV, h, ih, List.filter, hb]

theorem addLoopV_text_ne (ts : List JsText) (now seed : Nat) :
    ∀ it ∈ addLoopV ts now seed, it.text ≠ "" := by
  induction ts generalizing seed with
  | nil => intro it hit; simp [addLoopV] at hit
  | cons t ts ih =>
    intro it hit
    by_cases h : sanitizeItem t = ""
    · exact ih _ it (by simpa [addLoopV, h] using hit)
    · rcases (by simpa [addLoopV, h] using hit :
        it = ({ id := uuidStr now seed, text := sanitizeItem t,
                completed := false, createdAt := now } : Item) ∨
        it ∈ addLoopV ts now (seed + 1)) with h1 | h1
      · rw [h1]; exact h
      · exact ih _ it h1

/-- C5: `addItems` sanitizes each element and skips empties: the texts of
the returned items are exactly the non-empty sanitizations in order; the
whole batch performs exactly one load (one `getItem`); when at least one
element survives, exactly one write persists the previous items followed
by the new ones and the new items are returned; when none survives,
nothing is written, the store is untouched, and `[]` is returned. -/
theorem addItems_spec (st : St) (ts : List JsText)
    (h0 : st.setOutcomes = []) :
    ∃ newItems st',
      addItems (some ts) st = (.ok newItems, st') ∧
      newItems.map (fun it => it.text) =
        (ts.map sanitizeItem).filter (fun s => !(s == "")) ∧
      st'.getCount = st.getCount + 1 ∧
      (newItems ≠ [] →
        st'.setCount = st.setCount + 1 ∧
        st'.stored = .doc (stamp (withItems (loadedDoc st)
          ((loadedDoc st).items ++ newItems)) st.now).toRaw) ∧
      (newItems = [] →
        st'.setCount = st.setCount ∧ st'.stored = st.stored) := by
  by_cases hne : addLoopV ts st.now (st.seed + loadCost st.stored) = []
  · refine ⟨addLoopV ts st.now (st.seed + loadCost st.stored),
      afterLoop (afterLoad st) ts, ?_, addLoopV_texts ts st.now _, ?_, ?_, ?_⟩
    · have hlen : ¬ ((addLoopV ts st.now
          (st.seed + loadCost st.stored)).length > 0) := by
        rw [hne]; decide
      simp only [addItems, mbind, load_run, addItemsLoop_run, mpure,
        afterLoad, afterLoop]
      simp [hlen, mpure]
    · simp [afterLoop, afterLoad]
    · intro hcontra; exact absurd hne hcontra
    · intro _
      exact ⟨by simp [afterLoop, afterLoad], by simp [afterLoop, afterLoad]⟩
  · have hlen : (addLoopV ts st.now (st.seed + loadCost st.stored)).length
        > 0 := List.length_pos.mpr hne
    have h0' : (afterLoop (afterLoad st) ts).setOutcomes = [] := h0
    have hs := save_valid_ok (afterLoop (afterLoad st) ts)
      (withItems (loadedDoc st) ((loadedDoc st).items ++
        addLoopV ts st.now (st.seed + loadCost st.stored))) h0'
    refine ⟨addLoopV ts st.now (st.seed + loadCost st.stored),
      afterSaveOk (afterLoop (afterLoad st) ts)
        (withItems (loadedDoc st) ((loadedDoc st).items ++
          addLoopV ts st.now (st.seed + loadCost st.stored))),
      ?_, addLoopV_texts ts st.now _, ?_, ?_, ?_⟩
    · simp only [afterLoop, afterLoad, withItems] at hs
      simp only [addItems, mbind, load_run, addItemsLoop_run, mpure,
        afterLoad, afterLoop]
      simp [hlen, hs, mpure, afterSaveOk, withItems, afterLoop, afterLoad,
        mbind]
    · simp [afterSaveOk, afterLoop, afterLoad]
    · intro _
      refine ⟨by simp [afterSaveOk, afterLoop, afterLoad], ?_⟩
      simp [afterSaveOk, afterLoop, afterLoad]
    · intro hcontra; exact absurd hcontra hne

end QuickTodo

namespace QuickTodo

/-- Witness for C5 (the spec's example): on a fresh store,
`addItems(["a", "", "  ", "b"])` returns exactly two items with texts
`"a"` and `"b"`, performs exactly one load, and writes storage exactly
once, persisting exactly those two new items. -/
theorem addItems_spec_witness :
    (addItems (some [.ofString "a", .ofString "", .ofString "  ",
      .ofString "b"]) (freshStore 5 0)).1 =
      .ok [{ id := uuidStr 5 0, text := "a", completed := false,
             createdAt := 5 },
           { id := uuidStr 5 1, text := "b", completed := false,
             createdAt := 5 }] ∧
    (addItems (some [.ofString "a", .ofString "", .ofString "  ",
      .ofString "b"]) (freshStore 5 0)).2.getCount = 1 ∧
    (addItems (some [.ofString "a", .ofString "", .ofString "  ",
      .ofString "b"]) (freshStore 5 0)).2.setCount = 1 ∧
    (addItems (some [.ofString "a", .ofString "", .ofString "  ",
      .ofString "b"]) (freshStore 5 0)).2.stored =
      .doc (stamp (withItems (getDefaultData 5)
        [{ id := uuidStr 5 0, text := "a", completed := false,
           createdAt := 5 },
         { id := uuidStr 5 1, text := "b", completed := false,
           createdAt := 5 }]) 5).toRaw := by
  obtain ⟨newItems, st', hrun, htexts, hget, hsome, hnone⟩ :=
    addItems_spec (freshStore 5 0)
      [.ofString "a", .ofString "", .ofString "  ", .ofString "b"] rfl
  refine ⟨by decide, ?_, by decide, by decide⟩
  rw [hrun]
  exact hget

end QuickTodo

namespace QuickTodo

/-- C10 (amended): when the updates object carries a falsy `text` (absent
or the empty string), `updateItem` keeps the previous text but passes it
through `validateItem`'s re-sanitization — the stored text is
`sanitizeItem` of the previous text (equal to the previous text whenever
that text is a sanitization fixed point, which holds for every loaded
text except 200-character truncations ending in a space); all other
supplied fields of the updates object are merged as usual and the
original id is kept. -/
theorem updateItem_falsy_text (st : St) (id : String) (u : UpdObj) (ix : Nat)
    (h0 : st.setOutcomes = []) (hid : id ≠ "")
    (hfalsy : u.text = none ∨ u.text = some "")
    (hidx : (loadedDoc st).items.findIdx? (fun it => it.id == id) = some ix) :
    (updateItem id (some u) st).1 = .ok (some (updMergedItem
      ((loadedDoc st).items.getD ix dummyItem) id u)) ∧
    (updateItem id (some u) st).2.stored = .doc (stamp (withItems
      (loadedDoc st) ((loadedDoc st).items.set ix (updMergedItem
        ((loadedDoc st).items.getD ix dummyItem) id u))) st.now).toRaw ∧
    (updateItem id (some u) st).2.setCount = st.setCount + 1 := by
  obtain ⟨ut, uc, uca⟩ := u
  have h0' : (afterLoad st).setOutcomes = [] := h0
  have hs := save_valid_ok (afterLoad st)
    (withItems (loadedDoc st) ((loadedDoc st).items.set ix (updMergedItem
      ((loadedDoc st).items.getD ix dummyItem) id
      { text := ut, completed := uc, createdAt := uca }))) h0'
  simp [afterLoad, withItems, updMergedItem, dummyItem] at hs
  rcases hfalsy with hf | hf
  · replace hf : ut = none := hf
    subst hf
    simp [updateItem, mbind, load_run, hidx, mpure, validateObj_run,
      validateObjV, itemCost, hid, afterLoad, updMergedItem, hs, stamp,
      dummyItem, withItems]
  · replace hf : ut = some "" := hf
    subst hf
    simp [updateItem, mbind, load_run, hidx, mpure, validateObj_run,
      validateObjV, itemCost, hid, afterLoad, updMergedItem, hs, stamp,
      dummyItem, withItems]

end QuickTodo

namespace QuickTodo

/-- Witness for C10: updating item `"x"` (text `"hello"`) with
`{text: "", completed: true}` keeps the text `"hello"` (a sanitization
fixed point), applies the `completed` update, keeps `createdAt`, and
writes once. -/
theorem updateItem_falsy_text_witness :
    (updateItem "x"
        (some { text := some "", completed := some true,
                createdAt := none })
        oneItemSt).1 =
      .ok (some { id := "x", text := "hello", completed := true,
                  createdAt := 3 }) ∧
    (updateItem "x"
        (some { text := some "", completed := some true,
                createdAt := none })
        oneItemSt).2.setCount = 1 := by
  have h := updateItem_falsy_text oneItemSt "x"
    { text := some "", completed := some true, createdAt := none } 0
    rfl (by decide) (Or.inr rfl) (by decide)
  exact ⟨h.1.trans (by decide), h.2.2⟩

set_option maxRecDepth 8000 in
/-- C10, counterexample: an item whose stored text is a 200-character
truncation ending in a space (raw text 199 `a`s then `" b"`): updating it
with an empty-string (falsy) text does NOT leave the text equal to its
previous value — `validateItem` re-sanitizes it and the trailing space is
trimmed, shrinking the text from 200 to 199 characters. -/
theorem updateItem_falsy_text_changes_text :
    (loadedDoc truncSt).items =
      [{ id := "x", text := String.mk (List.replicate 199 'a' ++ [' ']),
         completed := false, createdAt := 1 }] ∧
    (updateItem "x"
        (some { text := some "", completed := none, createdAt := none })
        truncSt).1 =
      .ok (some { id := "x", text := String.mk (List.replicate 199 'a'),
                  completed := false, createdAt := 1 }) ∧
    String.mk (List.replicate 199 'a') ≠
      String.mk (List.replicate 199 'a' ++ [' ']) := by
  refine ⟨by decide, by decide, by decide⟩

end QuickTodo

namespace QuickTodo

/-! ## Round-trip of already-valid documents through validation -/

theorem vCost_toRaw (l : List Item) (hid : ∀ it ∈ l, it.id ≠ "") :
    vCost (l.map Item.toRaw) = 0 := by
  induction l with
  | nil => rfl
  | cons it l ih =>
    have h1 : it.id ≠ "" := hid it (List.mem_cons_self it l)
    simp [Item.toRaw, vCost, itemCost, h1,
      ih (fun x hx => hid x (List.mem_cons_of_mem it hx))]

theorem validateItemsV_toRaw (l : List Item) (now seed : Nat)
    (hid : ∀ it ∈ l, it.id ≠ "")
    (htext : ∀ it ∈ l, sanitizeItem (.ofString it.text) = it.text) :
    validateItemsV (l.map Item.toRaw) now seed = l := by
  induction l generalizing seed with
  | nil => rfl
  | cons it l ih =>
    have h1 : it.id ≠ "" := hid it (List.mem_cons_self it l)
    have h2 := htext it (List.mem_cons_self it l)
    rcases it with ⟨iid, itext, icomp, icat⟩
    have h1' : iid ≠ "" := h1
    have h2' : sanitizeItem (.ofString itext) = itext := h2
    have hc : itemCost { id := some iid, text := some itext,
                         completed := icomp, createdAt := some icat } = 0 := by
      simp [itemCost, h1']
    simp only [List.map_cons, Item.toRaw, validateItemsV, validateObjV, hc]
    simp [h1', h2',
      ih _ (fun x hx => hid x (List.mem_cons_of_mem _ hx))
        (fun x hx => htext x (List.mem_cons_of_mem _ hx))]

/-- C6: round-trip.  For a store persisting a valid collection document
(per the data model: every item id non-empty, every text already in
sanitized form), `exportData` serializes exactly the stored document, and
`importData` of that serialization into a fresh default store succeeds
and persists a document with exactly the same items — same `id`, `text`,
`completed` and `createdAt` for every item (only the administrative
`version`/`lastUpdated` stamps are refreshed by `save`). -/
theorem export_import_roundtrip (st : St) (D : Doc) (now2 seed2 : Nat)
    (hst : st.stored = .doc D.toRaw)
    (hid : ∀ it ∈ D.items, it.id ≠ "")
    (htext : ∀ it ∈ D.items, sanitizeItem (.ofString it.text) = it.text) :
    exportData st = (.ok (.parsedDoc D.toRaw), afterLoad st) ∧
    (importData (.parsedDoc D.toRaw) (freshStore now2 seed2)).1 = .ok true ∧
    (importData (.parsedDoc D.toRaw) (freshStore now2 seed2)).2.stored =
      .doc (stamp D now2).toRaw := by
  obtain ⟨v, items, lu, s⟩ := D
  have hid' : ∀ it ∈ items, it.id ≠ "" := hid
  have htext' : ∀ it ∈ items,
      sanitizeItem (.ofString it.text) = it.text := htext
  have hD : loadedDoc st = ⟨v, items, lu, s⟩ := by
    simp [loadedDoc, hst, loadV, Doc.toRaw,
      validateItemsV_toRaw items st.now st.seed hid' htext']
  have hcost : vCost (items.map Item.toRaw) = 0 := vCost_toRaw items hid'
  have hval : validateItemsV (items.map Item.toRaw) now2 seed2 = items :=
    validateItemsV_toRaw items now2 seed2 hid' htext'
  have hsave := save_valid_ok (freshStore now2 seed2) ⟨v, items, lu, s⟩ rfl
  simp only [freshStore] at hsave
  refine ⟨?_, ?_, ?_⟩
  · simp [exportData, mbind, load_run, mpure, hD]
  · simp [importData, tryM, mbind, mpure, getDefaultDataM, getNow,
      validateItems_run, hval, hcost, freshStore, Doc.toRaw,
      getDefaultData, hsave]
  · simp [importData, tryM, mbind, mpure, getDefaultDataM, getNow,
      validateItems_run, hval, hcost, freshStore, Doc.toRaw,
      getDefaultData, hsave, stamp]

/-- Witness for C6: importing the export of the one-item store into a
fresh default store succeeds and reproduces the item unchanged. -/
theorem export_import_roundtrip_witness :
    (importData (.parsedDoc oneItemDoc.toRaw) (freshStore 11 0)).1 =
      .ok true ∧
    (importData (.parsedDoc oneItemDoc.toRaw) (freshStore 11 0)).2.stored =
      .doc (stamp oneItemDoc 11).toRaw := by
  have h := export_import_roundtrip oneItemSt oneItemDoc 11 0 rfl
    (by decide) (by decide)
  exact ⟨h.2.1, h.2.2⟩

end QuickTodo

namespace QuickTodo

/-! ## The quota-recovery sort -/

theorem insertDesc_perm (it : Item) (l : List Item) :
    List.Perm (insertDesc it l) (it :: l) := by
  induction l with
  | nil => exact List.Perm.refl _
  | cons x xs ih =>
    by_cases h : x.createdAt ≤ it.createdAt
    · simp [insertDesc, h]
    · simp only [insertDesc, if_neg h]
      exact (ih.cons x).trans (List.Perm.swap it x xs)

theorem insertDesc_eq_cons (it : Item) (l : List Item)
    (h : ∀ y ∈ l, y.createdAt ≤ it.createdAt) :
    insertDesc it l = it :: l := by
  cases l with
  | nil => rfl
  | cons x xs => simp [insertDesc, h x (List.mem_cons_self x xs)]

/-- Stability evidence: an already descending-sorted list — in
particular any list whose `createdAt`s are all equal, as happens for a
batch added by `addItems` — is returned unchanged, matching the ES2019
stable `Array.prototype.sort`. -/
theorem sortByCreatedDesc_eq_self_of_sorted (l : List Item)
    (h : l.Pairwise (fun a b => b.createdAt ≤ a.createdAt)) :
    sortByCreatedDesc l = l := by
  induction l with
  | nil => rfl
  | cons x xs ih =>
    rw [List.pairwise_cons] at h
    rw [sortByCreatedDesc, ih h.2, insertDesc_eq_cons x xs h.1]

theorem sortByCreatedDesc_perm (l : List Item) :
    List.Perm (sortByCreatedDesc l) l := by
  induction l with
  | nil => exact List.Perm.refl _
  | cons x xs ih =>
    exact (insertDesc_perm x (sortByCreatedDesc xs)).trans (ih.cons x)

theorem insertDesc_pairwise (it : Item) (l : List Item)
    (h : l.Pairwise (fun a b => b.createdAt ≤ a.createdAt)) :
    (insertDesc it l).Pairwise (fun a b => b.createdAt ≤ a.createdAt) := by
  induction l with
  | nil => simp [insertDesc]
  | cons x xs ih =>
    rw [List.pairwise_cons] at h
    by_cases hle : x.createdAt ≤ it.createdAt
    · simp only [insertDesc, if_pos hle]
      rw [List.pairwise_cons]
      constructor
      · intro y hy
        rcases List.mem_cons.mp hy with hy | hy
        · rw [hy]; exact hle
        · exact le_trans (h.1 y hy) hle
      · exact List.pairwise_cons.mpr h
    · simp only [insertDesc, if_neg hle]
      rw [List.pairwise_cons]
      constructor
      · intro y hy
        have hy' : y ∈ it :: xs := (insertDesc_perm it xs).mem_iff.mp hy
        rcases List.mem_cons.mp hy' with hy'' | hy''
        · rw [hy'']; exact le_of_lt (lt_of_not_le hle)
        · exact h.1 y hy''
      · exact ih h.2

theorem sortByCreatedDesc_pairwise (l : List Item) :
    (sortByCreatedDesc l).Pairwise (fun a b => b.createdAt ≤ a.createdAt) := by
  induction l with
  | nil => simp [sortByCreatedDesc]
  | cons x xs ih => exact insertDesc_pairwise x (sortByCreatedDesc xs) ih

/-- C7: when a save fails with the backend's quota-exceeded error and
the stored document holds more than 100 (validated) items, the triggered
recovery leaves the store holding the first 50 items of the stable
descending-by-`createdAt` sort of the loaded items — at most 50 items,
the most recently created ones — written raw (no `save` re-stamping or
validation), while `save` still returns `false`; the sorted list is a
permutation of the loaded items and is descending in `createdAt`. -/
theorem quota_recovery (st : St) (d : Doc)
    (h0 : st.setOutcomes = [some .quotaExceeded])
    (hbig : (loadedDoc st).items.length > 100) :
    (save (.valid d) st).1 = .ok false ∧
    (save (.valid d) st).2.stored = .doc (withItems (loadedDoc st)
      ((sortByCreatedDesc (loadedDoc st).items).take 50)).toRaw ∧
    ((sortByCreatedDesc (loadedDoc st).items).take 50).length ≤ 50 ∧
    List.Perm (sortByCreatedDesc (loadedDoc st).items) (loadedDoc st).items ∧
    (sortByCreatedDesc (loadedDoc st).items).Pairwise
      (fun a b => b.createdAt ≤ a.createdAt) := by
  refine ⟨?_, ?_, ?_, sortByCreatedDesc_perm _, sortByCreatedDesc_pairwise _⟩
  rotate_right
  · rw [List.length_take]
    exact min_le_left _ _
  all_goals
    rcases st with ⟨stored, outs, now, seed, gc, sc⟩
  all_goals
    replace h0 : outs = [some .quotaExceeded] := h0
  all_goals
    subst h0
  all_goals
    simp only [loadedDoc] at hbig ⊢
  all_goals
    simp [save, tryM, mbind, mpure, getNow, setItemP, popOutcome,
      handleStorageQuotaExceeded, load_run, afterLoad, loadedDoc, hbig,
      withItems]

set_option maxRecDepth 20000 in
/-- Witness for C7 (the spec's simulation): a store holding 120 items
whose next write fails with quota exhaustion ends up holding at most 50
items — the prefix of the descending-by-`createdAt` sort — and the save
returns `false`. -/
theorem quota_recovery_witness :
    (save (.valid (getDefaultData 0)) manySt).1 = .ok false ∧
    (save (.valid (getDefaultData 0)) manySt).2.stored =
      .doc (withItems (loadedDoc manySt)
        ((sortByCreatedDesc (loadedDoc manySt).items).take 50)).toRaw ∧
    ((sortByCreatedDesc (loadedDoc manySt).items).take 50).length ≤ 50 := by
  have h := quota_recovery manySt (getDefaultData 0) rfl (by decide)
  exact ⟨h.1, h.2.1, h.2.2.1⟩

end QuickTodo

namespace QuickTodo

/-- C3, counterexample: the invariant is not maintained by the core.
Loading a stored document whose raw items share an id and lack a `text`
field yields a collection with two items both carrying id `"x"` — the
first with empty text — which `load` keeps (it repairs records, and drops
only non-objects); and `updateItem` with a whitespace-only text turns a
valid item's text into `""` and persists it. -/
theorem load_breaks_invariant :
    (loadedDoc dupSt).items =
      [{ id := "x", text := "", completed := false, createdAt := 1 },
       { id := "x", text := "b", completed := false, createdAt := 2 }] ∧
    ¬ ((loadedDoc dupSt).items.map (fun it => it.id)).Nodup ∧
    ¬ DocInv (loadedDoc dupSt) ∧
    (updateItem "x"
        (some { text := some " ", completed := none, createdAt := none })
        oneItemSt).1 =
      .ok (some { id := "x", text := "", completed := false,
                  createdAt := 3 }) ∧
    (updateItem "x"
        (some { text := some " ", completed := none, createdAt := none })
        oneItemSt).2.stored =
      .doc (stamp (withItems oneItemDoc
        [{ id := "x", text := "", completed := false,
           createdAt := 3 }]) 9).toRaw := by
  refine ⟨by decide, by decide, ?_, by decide, by decide⟩
  intro h
  exact (by decide :
    ¬ ((loadedDoc dupSt).items.map (fun it => it.id)).Nodup) h.2

/-- C3 (amended): the invariant (non-empty texts, pairwise-distinct ids)
is preserved by the creation path but not enforced by the repair paths:
every item `addItems` builds has non-empty text, and when the current
document satisfies the invariant and the freshly generated ids are
pairwise distinct and absent from it, the document `addItems` persists
satisfies the invariant again; `load`, `importData` and `updateItem`,
however, can produce documents with empty-text items, and
`load`/`importData` can produce duplicate ids, when given raw data or
updates that carry them (see the counterexample). -/
theorem addItems_preserves_invariant (st : St) (ts : List JsText)
    (h0 : st.setOutcomes = []) (hInv : DocInv (loadedDoc st))
    (hfresh : (genIdsOf st ts).Nodup)
    (hdisj : ∀ i ∈ genIdsOf st ts,
      i ∉ (loadedDoc st).items.map (fun it => it.id)) :
    (∀ it ∈ addLoopV ts st.now (st.seed + loadCost st.stored),
      it.text ≠ "") ∧
    DocInv (stamp (withItems (loadedDoc st) ((loadedDoc st).items ++
      addLoopV ts st.now (st.seed + loadCost st.stored))) st.now) ∧
    (addLoopV ts st.now (st.seed + loadCost st.stored) ≠ [] →
      (addItems (some ts) st).2.stored = .doc (stamp (withItems
        (loadedDoc st) ((loadedDoc st).items ++ addLoopV ts st.now
          (st.seed + loadCost st.stored))) st.now).toRaw) ∧
    (addLoopV ts st.now (st.seed + loadCost st.stored) = [] →
      (addItems (some ts) st).2.stored = st.stored) := by
  refine ⟨addLoopV_text_ne ts st.now _, ⟨?_, ?_⟩, ?_, ?_⟩
  · intro it hit
    rcases List.mem_append.mp (by simpa [stamp, withItems] using hit)
      with h | h
    · exact hInv.1 it h
    · exact addLoopV_text_ne ts st.now _ it h
  · show ((stamp (withItems (loadedDoc st) _) st.now).items.map
      (fun it => it.id)).Nodup
    simp only [stamp, withItems, List.map_append]
    exact List.nodup_append.mpr ⟨hInv.2, hfresh,
      fun a ha hb => hdisj a hb ha⟩
  · intro hne
    have hlen : (addLoopV ts st.now (st.seed + loadCost st.stored)).length
        > 0 := List.length_pos.mpr hne
    have h0' : (afterLoop (afterLoad st) ts).setOutcomes = [] := h0
    have hs := save_valid_ok (afterLoop (afterLoad st) ts)
      (withItems (loadedDoc st) ((loadedDoc st).items ++
        addLoopV ts st.now (st.seed + loadCost st.stored))) h0'
    simp only [afterLoop, afterLoad, withItems] at hs
    simp only [addItems, mbind, load_run, addItemsLoop_run, mpure,
      afterLoad, afterLoop]
    simp [hlen, hs, mpure, withItems, stamp, mbind]
  · intro he
    have hlen : ¬ ((addLoopV ts st.now
        (st.seed + loadCost st.stored)).length > 0) := by
      rw [he]; decide
    simp only [addItems, mbind, load_run, addItemsLoop_run, mpure,
      afterLoad, afterLoop]
    simp [hlen, mpure]

/-- Witness for C3: adding `"y"` to the valid one-item store preserves
the invariant, and the persisted document is the previous items plus the
new one. -/
theorem addItems_preserves_invariant_witness :
    DocInv (stamp (withItems (loadedDoc oneItemSt)
      ((loadedDoc oneItemSt).items ++ addLoopV [.ofString "y"] 9 0)) 9) ∧
    (addItems (some [.ofString "y"]) oneItemSt).2.stored =
      .doc (stamp (withItems (loadedDoc oneItemSt)
        ((loadedDoc oneItemSt).items ++
          addLoopV [.ofString "y"] 9 0)) 9).toRaw := by
  have h := addItems_preserves_invariant oneItemSt [.ofString "y"] rfl
    ⟨by decide, by decide⟩ (by decide) (by decide)
  exact ⟨h.2.1, h.2.2.1 (by decide)⟩

end QuickTodo
